import Mathlib

/-!
Verification of the request-serialization and lifecycle-management core of
ubuntu-proxy-manager.

The development shallowly embeds two source variants:

* the `lifecycle` package (`internal/lifecycle/lifecycle.go`) together with the
  `proxyManagerBus.Apply` / `App.Wait` / `App.Quit` layer built on it
  (the lifecycle-based revision of `internal/app/app.go`), as an interleaving
  small-step semantics over a global configuration (`LConf`, `lstep`);
* the mutex-plus-context-cancellation revision of `internal/app/app.go`
  (`MConf`, `mstep`), used for the refinement comparison.

Go `error` values produced by collaborators are modelled as `Option String`
(`none` = `nil`, `some msg` = an error whose `Error()` text is `msg`).
The distinguished sentinel `lifecycle.ErrTimeoutReached` and the result of
`errors.Join` are modelled by `GoError`; `errors.Is(e, ErrTimeoutReached)`
compares error identity, so a collaborator error whose text happens to be
"timeout reached" is still distinct from the sentinel.
-/

namespace UPM

/-- Go error values as they appear at the `Wait` boundary:
the `ErrTimeoutReached` sentinel (`lifecycle.go` line 15), an opaque
collaborator error, or the result of `errors.Join` over the non-nil
recorded run errors (which in this program are always collaborator errors,
so the joined list is a list of messages). -/
inductive GoError where
  | timeoutReached
  | apperr (msg : String)
  | joinE (msgs : List String)
deriving DecidableEq

/-- The text of the error, as `GoError.Error()` renders it; `errors.Join` joins the
messages with newlines. -/
def GoError.message : GoError → String
  | .timeoutReached => "timeout reached"
  | .apperr m => m
  | .joinE ms => String.intercalate ("\n") ms

/-- Model of `errors.Join(l.errors...)` (`lifecycle.go` line 73): nil errors are
discarded; if none remain the result is nil, otherwise a join error holding
every non-nil error, in order, with no deduplication. -/
def errorsJoin (es : List (Option String)) : Option GoError :=
  let ms := es.filterMap id
  if ms.isEmpty then none else some (.joinE ms)

/-- The list of individual error messages inside an aggregate error. -/
def aggMsgs : Option GoError → List String
  | some (.joinE ms) => ms
  | some (.apperr m) => [m]
  | _ => []

/-- Model of `errors.Is(err, lifecycle.ErrTimeoutReached)` (`app.go` App.Wait):
identity comparison against the sentinel.  Run errors recorded via
`RunDone` are collaborator errors, never the sentinel, so a join is never
`Is` the sentinel. -/
def isTimeoutErr : Option GoError → Bool
  | some .timeoutReached => true
  | _ => false

/-- Model of `App.Wait` (lifecycle-based `app.go`, lines 154-163): the timeout
indication maps to a clean nil return; any other error is propagated. -/
def appWait (r : Option GoError) : Option GoError :=
  if isTimeoutErr r then none else r

/-- Program counter of one `proxyManagerBus.Apply` request handler
(lifecycle-based `app.go` lines 59-83, with the `Lifecycle` operations of
`lifecycle.go` inlined at their call sites):

* `atCheck`  — about to read `b.l.QuitRequested()` (app.go line 63);
* `atIncr`   — inside `Start`: about to run `l.counter.Add(1)` (lifecycle.go line 45);
* `atOnce`   — inside `Start`: about to run `l.firstRun.Do(close(l.started))` (line 46);
* `atLock`   — inside `Start`: about to run `l.appMu.Lock()` (line 51);
* `atAuth`   — about to call `b.authorizer.IsSenderAllowed` (app.go line 75);
* `atApply`  — about to call `b.proxy.Apply` (app.go line 79);
* `atAppend` — inside the deferred `RunDone`: about to append to `l.errors` (lifecycle.go line 56);
* `atDecr`   — inside `RunDone`: about to run `l.counter.Done()` (line 57);
* `atUnlock` — inside `RunDone`: about to run `l.appMu.Unlock()` (line 58);
* `finished` — returned to the D-Bus caller;
* `rejected` — returned the "application exit requested" failure without
  calling `Start` (app.go line 64). -/
inductive RPC where
  | atCheck | atIncr | atOnce | atLock | atAuth | atApply
  | atAppend | atDecr | atUnlock | finished | rejected
deriving DecidableEq

/-- One request-handler goroutine.  `authRes`/`applyRes` are the (fixed)
results the authorization and proxy-apply collaborators would return for
this request; `err` is the local `err` variable of `Apply`; the call
counters and `recorded`/`retv` are history variables recording the calls
made, the value passed to `RunDone`, and the value returned to the caller
(`retv = some none` is a nil D-Bus reply, `retv = some (some m)` is
`dbus.MakeFailedError` of an error with text `m`). -/
structure RThread where
  pc : RPC
  authRes : Option String
  applyRes : Option String
  err : Option String := none
  startCalls : Nat := 0
  authCalls : Nat := 0
  applyCalls : Nat := 0
  appends : Nat := 0
  recorded : Option (Option String) := none
  retv : Option (Option String) := none
deriving DecidableEq

/-- Program counter of the single top-level `Wait` flow
(`lifecycle.Wait`, lines 66-81):

* `wEntry`  — about to create the idle timer (line 67);
* `wSelect` — blocked in the `select` (lines 70-79);
* `wDrain`  — committed to the `<-l.started` case, blocked in
  `l.counter.Wait()` (line 72);
* `wJoin`   — `counter.Wait` returned, about to read `l.errors` and return
  `errors.Join(l.errors...)` (line 73);
* `wDone`   — returned. -/
inductive WPC where
  | wEntry | wSelect | wDrain | wJoin | wDone
deriving DecidableEq

/-- Which branch `Wait` resolved through, with the drain branch carrying
`errors.Join` of the recorded run errors, the quitted branch returning nil
(line 76) and the timer branch returning `ErrTimeoutReached` (line 78). -/
inductive WRet where
  | drained (r : Option GoError)
  | quitNil
  | timedOut
deriving DecidableEq

/-- The `error` value `lifecycle.Wait` actually returns for each branch. -/
def WRet.toErr : WRet → Option GoError
  | .drained r => r
  | .quitNil => none
  | .timedOut => some .timeoutReached

/-- Global configuration: the `Lifecycle` struct fields (`lifecycle.go`
lines 18-31) plus the request goroutines, the `Wait` flow and the idle
timer.

* `counter` — the `sync.WaitGroup` count;
* `appMu` — whether `l.appMu` is held;
* `errs` — `l.errors` (entries may be `none`: `RunDone` appends nil too);
* `exitRequested`, `quitted`, `started` — the quit flag and the two
  one-shot channels (`true` = closed);
* `timerArmed`/`timerFired` — the idle timer exists (Wait entered) / has
  fired;
* `crashed` — a Go run-time panic occurred (close of an already-closed
  channel in `Quit`, lifecycle.go line 88); no further step is possible.

`firstRun : sync.Once` is represented by `started` itself: `Once.Do`
closes `started` on the first call and is a no-op afterwards, which is
observationally `started := true`.  `Quit` (lines 84-90) holds `quitMu`
for both the close and the flag write, and `QuitRequested` (lines 93-98)
reads under the same lock, so the two writes are one atomic step here. -/
structure LConf where
  counter : Nat
  appMu : Bool
  errs : List (Option String)
  exitRequested : Bool
  quitted : Bool
  started : Bool
  timerArmed : Bool
  timerFired : Bool
  crashed : Bool
  reqs : List RThread
  wpc : WPC
  wret : Option WRet
deriving DecidableEq

/-- The rejection error text of `Apply` (lifecycle-based app.go line 64). -/
def exitingMsg : String := "application exit requested, cannot apply proxy settings"

/-- Scheduler actions: one atomic step of request goroutine `i`, one call
to `Quit()`, the idle timer firing, or one step of the `Wait` flow (with
the `select` branch made explicit, since Go chooses among ready cases
nondeterministically). -/
inductive Act where
  | req (i : Nat)
  | quitCall
  | timerFire
  | wEnter
  | wSelStarted
  | wSelQuitted
  | wSelTimer
  | wDrainZero
  | wJoinErrs
deriving DecidableEq

/-- The collaborator result selecting the run's error: the authorization
error on denial, otherwise the proxy-apply result (app.go lines 75-81). -/
def runErrOf (t : RThread) : Option String :=
  match t.authRes with
  | some e => some e
  | none => t.applyRes

/-- One atomic step of request goroutine `i` (currently in state `t`),
following `proxyManagerBus.Apply` with the `Lifecycle` calls inlined.
A goroutine at `atLock` is blocked while `appMu` is held. -/
def reqStep (c : LConf) (t : RThread) (i : Nat) : Option LConf :=
  match t.pc with
  | .atCheck =>
      if c.exitRequested then
        let t' := { t with pc := RPC.rejected, retv := some (some exitingMsg) }
        some { c with reqs := c.reqs.set i t' }
      else
        some { c with reqs := c.reqs.set i { t with pc := RPC.atIncr } }
  | .atIncr =>
      let t' := { t with pc := RPC.atOnce, startCalls := t.startCalls + 1 }
      some { c with counter := c.counter + 1, reqs := c.reqs.set i t' }
  | .atOnce =>
      some { c with started := true, reqs := c.reqs.set i { t with pc := RPC.atLock } }
  | .atLock =>
      if c.appMu then none
      else some { c with appMu := true, reqs := c.reqs.set i { t with pc := RPC.atAuth } }
  | .atAuth =>
      match t.authRes with
      | some e =>
          let t' := { t with pc := RPC.atAppend, err := some e, authCalls := t.authCalls + 1 }
          some { c with reqs := c.reqs.set i t' }
      | none =>
          let t' := { t with pc := RPC.atApply, err := none, authCalls := t.authCalls + 1 }
          some { c with reqs := c.reqs.set i t' }
  | .atApply =>
      let t' := { t with pc := RPC.atAppend, err := t.applyRes,
                         applyCalls := t.applyCalls + 1 }
      some { c with reqs := c.reqs.set i t' }
  | .atAppend =>
      let t' := { t with pc := RPC.atDecr, appends := t.appends + 1,
                         recorded := some t.err }
      some { c with errs := c.errs ++ [t.err], reqs := c.reqs.set i t' }
  | .atDecr =>
      some { c with counter := c.counter - 1, reqs := c.reqs.set i { t with pc := RPC.atUnlock } }
  | .atUnlock =>
      let t' := { t with pc := RPC.finished, retv := some t.err }
      some { c with appMu := false, reqs := c.reqs.set i t' }
  | .finished => none
  | .rejected => none

/-- The global small-step function.  `none` means the action is not
enabled in `c` (the goroutine is blocked or already done).  After a Go
run-time panic (`crashed`) the process is dead and nothing steps. -/
def lstep (c : LConf) (a : Act) : Option LConf :=
  if c.crashed then none else
  match a with
  | .req i =>
      match c.reqs[i]? with
      | some t => reqStep c t i
      | none => none
  | .quitCall =>
      -- Quit (lifecycle.go lines 84-90): close(l.quitted) panics if the
      -- channel is already closed; otherwise it closes the channel and
      -- sets the flag, atomically w.r.t. QuitRequested thanks to quitMu.
      if c.quitted then some { c with crashed := true }
      else some { c with quitted := true, exitRequested := true }
  | .timerFire =>
      if c.timerArmed ∧ ¬ c.timerFired then some { c with timerFired := true } else none
  | .wEnter =>
      if c.wpc = .wEntry then some { c with wpc := .wSelect, timerArmed := true } else none
  | .wSelStarted =>
      if c.wpc = .wSelect ∧ c.started then some { c with wpc := .wDrain } else none
  | .wSelQuitted =>
      if c.wpc = .wSelect ∧ c.quitted then
        some { c with wpc := .wDone, wret := some .quitNil } else none
  | .wSelTimer =>
      if c.wpc = .wSelect ∧ c.timerFired then
        some { c with wpc := .wDone, wret := some .timedOut } else none
  | .wDrainZero =>
      if c.wpc = .wDrain ∧ c.counter = 0 then some { c with wpc := .wJoin } else none
  | .wJoinErrs =>
      if c.wpc = .wJoin then
        some { c with wpc := .wDone, wret := some (.drained (errorsJoin c.errs)) } else none

/-- Run a whole schedule of actions. -/
def lrun (c : LConf) : List Act → Option LConf
  | [] => some c
  | a :: rest => (lstep c a).bind (fun c' => lrun c' rest)

/-- A fresh request goroutine about to enter `Apply`, with the fixed
collaborator results it would observe. -/
def initThread (p : Option String × Option String) : RThread :=
  { pc := .atCheck, authRes := p.1, applyRes := p.2 }

/-- The initial configuration produced by `lifecycle.New` (lifecycle.go
lines 34-40) with one pending request goroutine per spec pair
`(authorization result, proxy-apply result)`. -/
def linit (specs : List (Option String × Option String)) : LConf :=
  { counter := 0, appMu := false, errs := [], exitRequested := false,
    quitted := false, started := false, timerArmed := false, timerFired := false,
    crashed := false, reqs := specs.map initThread, wpc := .wEntry, wret := none }

/-! ## Regions of the request program and the global invariant -/

/-- The protected section: from the return of `Start()` (the moment
`appMu.Lock()` succeeds) up to and including the release in `RunDone`
(`appMu.Unlock()`), i.e. the authorization check plus the apply call. -/
def inProt : RPC → Bool
  | .atAuth | .atApply | .atAppend | .atDecr | .atUnlock => true
  | _ => false

/-- Between the `counter.Add(1)` of `Start` and the `counter.Done()` of
`RunDone`: the program points that contribute 1 to the WaitGroup count. -/
def inMid : RPC → Bool
  | .atOnce | .atLock | .atAuth | .atApply | .atAppend | .atDecr => true
  | _ => false

/-- Past the `l.errors = append(l.errors, err)` of `RunDone`. -/
def pastAppendP : RPC → Bool
  | .atDecr | .atUnlock | .finished => true
  | _ => false

/-- Past the `counter.Add(1)` of `Start`, i.e. an accepted run that has
started (its rejection check is behind it and it was not rejected). -/
def pastIncrP : RPC → Bool
  | .atOnce | .atLock | .atAuth | .atApply | .atAppend | .atDecr | .atUnlock | .finished => true
  | _ => false

/-- Per-thread characterization: at each program point of `Apply`, the
history variables and the local `err` have the values dictated by the
straight-line source code. -/
def threadOk (t : RThread) : Bool :=
  match t.pc with
  | .atCheck =>
      t.err == none && t.startCalls == 0 && t.authCalls == 0 && t.applyCalls == 0 &&
      t.appends == 0 && t.recorded == none && t.retv == none
  | .rejected =>
      t.err == none && t.startCalls == 0 && t.authCalls == 0 && t.applyCalls == 0 &&
      t.appends == 0 && t.recorded == none && t.retv == some (some exitingMsg)
  | .atIncr =>
      t.err == none && t.startCalls == 0 && t.authCalls == 0 && t.applyCalls == 0 &&
      t.appends == 0 && t.recorded == none && t.retv == none
  | .atOnce | .atLock | .atAuth =>
      t.err == none && t.startCalls == 1 && t.authCalls == 0 && t.applyCalls == 0 &&
      t.appends == 0 && t.recorded == none && t.retv == none
  | .atApply =>
      t.authRes == none && t.err == none && t.startCalls == 1 && t.authCalls == 1 &&
      t.applyCalls == 0 && t.appends == 0 && t.recorded == none && t.retv == none
  | .atAppend =>
      t.err == runErrOf t && t.startCalls == 1 && t.authCalls == 1 &&
      t.applyCalls == (if t.authRes.isSome then 0 else 1) &&
      t.appends == 0 && t.recorded == none && t.retv == none
  | .atDecr | .atUnlock =>
      t.err == runErrOf t && t.startCalls == 1 && t.authCalls == 1 &&
      t.applyCalls == (if t.authRes.isSome then 0 else 1) &&
      t.appends == 1 && t.recorded == some t.err && t.retv == none
  | .finished =>
      t.err == runErrOf t && t.startCalls == 1 && t.authCalls == 1 &&
      t.applyCalls == (if t.authRes.isSome then 0 else 1) &&
      t.appends == 1 && t.recorded == some t.err && t.retv == some t.err

/-- Number of goroutines currently inside the protected section. -/
def protCount (c : LConf) : Nat := c.reqs.countP (fun t => inProt t.pc)

/-- Number of goroutines currently contributing to the WaitGroup count. -/
def midCount (c : LConf) : Nat := c.reqs.countP (fun t => inMid t.pc)

/-- The errors of the runs that have executed their `RunDone` append, in
thread order. -/
def recordedErrs (c : LConf) : List (Option String) :=
  (c.reqs.filter (fun t => pastAppendP t.pc)).map RThread.err

/-- The global inductive invariant of the lifecycle system:
the mutex is held by exactly the goroutines inside the protected section
(so there is at most one of them); the WaitGroup count equals the number
of started-but-not-yet-decremented runs; `l.errors` holds exactly (up to
order) the errors of the runs past their `RunDone` append; and every
goroutine satisfies its per-program-point characterization. -/
def Inv (c : LConf) : Prop :=
  protCount c = (if c.appMu then 1 else 0) ∧
  c.counter = midCount c ∧
  c.errs.Perm (recordedErrs c) ∧
  ∀ t ∈ c.reqs, threadOk t = true

/-! ### Generic list lemmas about `List.set` -/

theorem countP_set_eq {α : Type} (p : α → Bool) :
    ∀ (l : List α) (i : Nat) (x y : α), l[i]? = some x →
      (l.set i y).countP p + (if p x then 1 else 0) =
        l.countP p + (if p y then 1 else 0) := by
  intro l
  induction l with
  | nil => intro i x y h; simp at h
  | cons a as ih =>
    intro i x y h
    cases i with
    | zero =>
      simp at h
      subst h
      simp [List.countP_cons]
      omega
    | succ n =>
      simp at h
      have := ih n x y h
      simp [List.countP_cons]
      omega

theorem filter_set_of_false {α : Type} (p : α → Bool) :
    ∀ (l : List α) (i : Nat) (x y : α), l[i]? = some x →
      p x = false → p y = false → (l.set i y).filter p = l.filter p := by
  intro l
  induction l with
  | nil => intro i x y h; simp at h
  | cons a as ih =>
    intro i x y h hx hy
    cases i with
    | zero =>
      simp at h
      subst h
      simp [List.filter_cons, hx, hy]
    | succ n =>
      simp at h
      have hr := ih n x y h hx hy
      simp [List.filter_cons, hr]

theorem map_filter_set_of_true {α β : Type} (p : α → Bool) (f : α → β) :
    ∀ (l : List α) (i : Nat) (x y : α), l[i]? = some x →
      p x = true → p y = true → f x = f y →
      ((l.set i y).filter p).map f = (l.filter p).map f := by
  intro l
  induction l with
  | nil => intro i x y h; simp at h
  | cons a as ih =>
    intro i x y h hx hy hf
    cases i with
    | zero =>
      simp at h
      subst h
      simp [List.filter_cons, hx, hy, hf]
    | succ n =>
      simp at h
      have hr := ih n x y h hx hy hf
      by_cases ha : p a
      · simp [List.filter_cons, ha, hr]
      · simp [List.filter_cons, ha, hr]

theorem filter_set_perm_cons {α : Type} (p : α → Bool) :
    ∀ (l : List α) (i : Nat) (x y : α), l[i]? = some x →
      p x = false → p y = true →
      ((l.set i y).filter p).Perm (y :: l.filter p) := by
  intro l
  induction l with
  | nil => intro i x y h; simp at h
  | cons a as ih =>
    intro i x y h hx hy
    cases i with
    | zero =>
      simp at h
      subst h
      simp [List.filter_cons, hx, hy]
    | succ n =>
      simp at h
      by_cases ha : p a
      · simp [List.filter_cons, ha]
        exact ((ih n x y h hx hy).cons a).trans (List.Perm.swap y a _)
      · simp [List.filter_cons, ha]
        exact ih n x y h hx hy

theorem countP_set_same {α : Type} (p : α → Bool) (l : List α) (i : Nat) (x y : α)
    (h : l[i]? = some x) (hxy : p x = p y) : (l.set i y).countP p = l.countP p := by
  have := countP_set_eq p l i x y h
  rw [hxy] at this
  omega

theorem countP_set_incr {α : Type} (p : α → Bool) (l : List α) (i : Nat) (x y : α)
    (h : l[i]? = some x) (hx : p x = false) (hy : p y = true) :
    (l.set i y).countP p = l.countP p + 1 := by
  have := countP_set_eq p l i x y h
  rw [hx, hy] at this
  simp at this
  omega

theorem countP_set_decr {α : Type} (p : α → Bool) (l : List α) (i : Nat) (x y : α)
    (h : l[i]? = some x) (hx : p x = true) (hy : p y = false) :
    (l.set i y).countP p + 1 = l.countP p := by
  have := countP_set_eq p l i x y h
  rw [hx, hy] at this
  simp at this
  omega

/-- The invariant `Inv` only depends on the counter, the mutex, the error list and the
request goroutines. -/
theorem inv_depends {c c' : LConf} (hI : Inv c)
    (hco : c'.counter = c.counter) (hmu : c'.appMu = c.appMu)
    (he : c'.errs = c.errs) (hr : c'.reqs = c.reqs) : Inv c' := by
  obtain ⟨h1, h2, h3, h4⟩ := hI
  refine ⟨?_, ?_, ?_, ?_⟩
  · simpa [protCount, hr, hmu] using h1
  · simpa [midCount, hco, hr] using h2
  · simpa [recordedErrs, he, hr] using h3
  · rw [hr]; exact h4

/-- A request step that only moves its own thread within the same regions
(not crossing a lock, counter or append boundary) preserves `Inv`. -/
theorem inv_set_simple {c : LConf} {t t' : RThread} {i : Nat}
    (hI : Inv c) (hget : c.reqs[i]? = some t)
    (hprot : inProt t.pc = inProt t'.pc)
    (hmid : inMid t.pc = inMid t'.pc)
    (hpx : pastAppendP t.pc = false) (hpy : pastAppendP t'.pc = false)
    (hok : threadOk t' = true) :
    Inv { c with reqs := c.reqs.set i t' } := by
  obtain ⟨h1, h2, h3, h4⟩ := hI
  refine ⟨?_, ?_, ?_, ?_⟩
  · show (c.reqs.set i t').countP (fun u => inProt u.pc) = _
    rw [countP_set_same _ _ _ _ _ hget hprot]
    exact h1
  · show c.counter = (c.reqs.set i t').countP (fun u => inMid u.pc)
    rw [countP_set_same _ _ _ _ _ hget hmid]
    exact h2
  · show c.errs.Perm (((c.reqs.set i t').filter (fun u => pastAppendP u.pc)).map RThread.err)
    rw [filter_set_of_false _ _ _ _ _ hget hpx hpy]
    exact h3
  · intro u hu
    rcases List.mem_or_eq_of_mem_set hu with hm | hm
    · exact h4 u hm
    · rw [hm]; exact hok

/-- Preservation of the global invariant by one step of a request
goroutine. -/
theorem inv_reqStep {c c' : LConf} {t : RThread} {i : Nat}
    (hI : Inv c) (hget : c.reqs[i]? = some t) (h : reqStep c t i = some c') : Inv c' := by
  have hmem : t ∈ c.reqs := List.getElem?_mem hget
  have hok := hI.2.2.2 t hmem
  have hall : ∀ u : RThread, threadOk u = true →
      ∀ v ∈ c.reqs.set i u, threadOk v = true := by
    intro u hu v hv
    rcases List.mem_or_eq_of_mem_set hv with hm | hm
    · exact hI.2.2.2 v hm
    · rw [hm]; exact hu
  obtain ⟨h1, h2, h3, h4⟩ := hI
  cases hpc : t.pc with
  | atCheck =>
    simp only [reqStep, hpc] at h
    simp only [threadOk, hpc, Bool.and_eq_true, beq_iff_eq, and_assoc] at hok
    obtain ⟨e1, e2, e3, e4, e5, e6, e7⟩ := hok
    by_cases hq : c.exitRequested = true
    · rw [if_pos hq] at h
      injection h with h
      subst h
      exact inv_set_simple ⟨h1, h2, h3, h4⟩ hget (by simp [inProt, hpc])
        (by simp [inMid, hpc]) (by simp [pastAppendP, hpc]) (by simp [pastAppendP])
        (by simp [threadOk, e1, e2, e3, e4, e5, e6])
    · rw [if_neg hq] at h
      injection h with h
      subst h
      exact inv_set_simple ⟨h1, h2, h3, h4⟩ hget (by simp [inProt, hpc])
        (by simp [inMid, hpc]) (by simp [pastAppendP, hpc]) (by simp [pastAppendP])
        (by simp [threadOk, e1, e2, e3, e4, e5, e6, e7])
  | atIncr =>
    simp only [reqStep, hpc, Option.some.injEq] at h
    simp only [threadOk, hpc, Bool.and_eq_true, beq_iff_eq, and_assoc] at hok
    obtain ⟨e1, e2, e3, e4, e5, e6, e7⟩ := hok
    subst h
    refine ⟨?_, ?_, ?_, ?_⟩
    · show (c.reqs.set i _).countP (fun u => inProt u.pc) = _
      rw [countP_set_same _ _ _ _ _ hget (by simp [inProt, hpc])]
      exact h1
    · show c.counter + 1 = (c.reqs.set i _).countP (fun u => inMid u.pc)
      rw [countP_set_incr _ _ _ _ _ hget (by simp [inMid, hpc]) (by simp [inMid])]
      have h2c : c.counter = c.reqs.countP (fun u => inMid u.pc) := h2
      omega
    · show c.errs.Perm (((c.reqs.set i _).filter (fun u => pastAppendP u.pc)).map RThread.err)
      rw [filter_set_of_false _ _ _ _ _ hget (by simp [pastAppendP, hpc]) (by simp [pastAppendP])]
      exact h3
    · exact hall _ (by simp [threadOk, e1, e2, e3, e4, e5, e6, e7])
  | atOnce =>
    simp only [reqStep, hpc, Option.some.injEq] at h
    simp only [threadOk, hpc, Bool.and_eq_true, beq_iff_eq, and_assoc] at hok
    obtain ⟨e1, e2, e3, e4, e5, e6, e7⟩ := hok
    subst h
    exact inv_depends (inv_set_simple ⟨h1, h2, h3, h4⟩ hget (by simp [inProt, hpc])
      (by simp [inMid, hpc]) (by simp [pastAppendP, hpc]) (by simp [pastAppendP])
      (by simp [threadOk, e1, e2, e3, e4, e5, e6, e7])) rfl rfl rfl rfl
  | atLock =>
    simp only [reqStep, hpc] at h
    simp only [threadOk, hpc, Bool.and_eq_true, beq_iff_eq, and_assoc] at hok
    obtain ⟨e1, e2, e3, e4, e5, e6, e7⟩ := hok
    by_cases hmu : c.appMu = true
    · rw [if_pos hmu] at h
      exact absurd h (by simp)
    · rw [if_neg hmu] at h
      injection h with h
      subst h
      rw [if_neg hmu] at h1
      refine ⟨?_, ?_, ?_, ?_⟩
      · show (c.reqs.set i _).countP (fun u => inProt u.pc) = 1
        rw [countP_set_incr _ _ _ _ _ hget (by simp [inProt, hpc]) (by simp [inProt])]
        have h1c : c.reqs.countP (fun u => inProt u.pc) = 0 := h1
        omega
      · show c.counter = (c.reqs.set i _).countP (fun u => inMid u.pc)
        rw [countP_set_same _ _ _ _ _ hget (by simp [inMid, hpc])]
        exact h2
      · show c.errs.Perm (((c.reqs.set i _).filter (fun u => pastAppendP u.pc)).map RThread.err)
        rw [filter_set_of_false _ _ _ _ _ hget (by simp [pastAppendP, hpc]) (by simp [pastAppendP])]
        exact h3
      · exact hall _ (by simp [threadOk, e1, e2, e3, e4, e5, e6, e7])
  | atAuth =>
    simp only [reqStep, hpc, Option.some.injEq] at h
    simp only [threadOk, hpc, Bool.and_eq_true, beq_iff_eq, and_assoc] at hok
    obtain ⟨e1, e2, e3, e4, e5, e6, e7⟩ := hok
    cases har : t.authRes with
    | none =>
      rw [har] at h
      injection h with h
      subst h
      exact inv_set_simple ⟨h1, h2, h3, h4⟩ hget (by simp [inProt, hpc])
        (by simp [inMid, hpc]) (by simp [pastAppendP, hpc]) (by simp [pastAppendP])
        (by simp [threadOk, runErrOf, har, e2, e3, e4, e5, e6, e7])
    | some eauth =>
      rw [har] at h
      injection h with h
      subst h
      exact inv_set_simple ⟨h1, h2, h3, h4⟩ hget (by simp [inProt, hpc])
        (by simp [inMid, hpc]) (by simp [pastAppendP, hpc]) (by simp [pastAppendP])
        (by simp [threadOk, runErrOf, har, e2, e3, e4, e5, e6, e7])
  | atApply =>
    simp only [reqStep, hpc, Option.some.injEq] at h
    simp only [threadOk, hpc, Bool.and_eq_true, beq_iff_eq, and_assoc] at hok
    obtain ⟨e0, e1, e2, e3, e4, e5, e6, e7⟩ := hok
    subst h
    exact inv_set_simple ⟨h1, h2, h3, h4⟩ hget (by simp [inProt, hpc])
      (by simp [inMid, hpc]) (by simp [pastAppendP, hpc]) (by simp [pastAppendP])
      (by simp [threadOk, runErrOf, e0, e2, e3, e4, e5, e6, e7])
  | atAppend =>
    simp only [reqStep, hpc, Option.some.injEq] at h
    simp only [threadOk, hpc, Bool.and_eq_true, beq_iff_eq, and_assoc] at hok
    obtain ⟨e1, e2, e3, e4, e5, e6, e7⟩ := hok
    subst h
    refine ⟨?_, ?_, ?_, ?_⟩
    · show (c.reqs.set i _).countP (fun u => inProt u.pc) = _
      rw [countP_set_same _ _ _ _ _ hget (by simp [inProt, hpc])]
      exact h1
    · show c.counter = (c.reqs.set i _).countP (fun u => inMid u.pc)
      rw [countP_set_same _ _ _ _ _ hget (by simp [inMid, hpc])]
      exact h2
    · show (c.errs ++ [t.err]).Perm
        (((c.reqs.set i _).filter (fun u => pastAppendP u.pc)).map RThread.err)
      have hp := filter_set_perm_cons (fun u => pastAppendP u.pc) c.reqs i t
        { t with pc := RPC.atDecr, appends := t.appends + 1, recorded := some t.err }
        hget (by simp [pastAppendP, hpc]) (by simp [pastAppendP])
      have hp2 := hp.map RThread.err
      refine ((List.perm_append_singleton _ _).trans (h3.cons _)).trans ?_
      exact hp2.symm
    · exact hall _ (by simp [threadOk, runErrOf, e1, e2, e3, e4, e5, e6, e7])
  | atDecr =>
    simp only [reqStep, hpc, Option.some.injEq] at h
    simp only [threadOk, hpc, Bool.and_eq_true, beq_iff_eq, and_assoc] at hok
    obtain ⟨e1, e2, e3, e4, e5, e6, e7⟩ := hok
    subst h
    refine ⟨?_, ?_, ?_, ?_⟩
    · show (c.reqs.set i _).countP (fun u => inProt u.pc) = _
      rw [countP_set_same _ _ _ _ _ hget (by simp [inProt, hpc])]
      exact h1
    · show c.counter - 1 = (c.reqs.set i _).countP (fun u => inMid u.pc)
      have hd := countP_set_decr (fun u => inMid u.pc) c.reqs i t
        { t with pc := RPC.atUnlock } hget (by simp [inMid, hpc]) (by simp [inMid])
      have hpos : 0 < c.reqs.countP (fun u => inMid u.pc) :=
        List.countP_pos.mpr ⟨t, hmem, by simp [inMid, hpc]⟩
      have h2c : c.counter = c.reqs.countP (fun u => inMid u.pc) := h2
      omega
    · show c.errs.Perm (((c.reqs.set i _).filter (fun u => pastAppendP u.pc)).map RThread.err)
      have hmf := map_filter_set_of_true (fun u => pastAppendP u.pc) RThread.err c.reqs i t
        { t with pc := RPC.atUnlock } hget (by simp [pastAppendP, hpc])
        (by simp [pastAppendP]) rfl
      rw [hmf]
      exact h3
    · exact hall _ (by simp [threadOk, runErrOf, e1, e2, e3, e4, e5, e6, e7])
  | atUnlock =>
    simp only [reqStep, hpc, Option.some.injEq] at h
    simp only [threadOk, hpc, Bool.and_eq_true, beq_iff_eq, and_assoc] at hok
    obtain ⟨e1, e2, e3, e4, e5, e6, e7⟩ := hok
    subst h
    have hposP : 0 < c.reqs.countP (fun u => inProt u.pc) :=
      List.countP_pos.mpr ⟨t, hmem, by simp [inProt, hpc]⟩
    have hmu : c.appMu = true := by
      by_contra hmu
      rw [if_neg hmu] at h1
      simp only [protCount] at h1
      omega
    refine ⟨?_, ?_, ?_, ?_⟩
    · show (c.reqs.set i _).countP (fun u => inProt u.pc) = 0
      have hd := countP_set_decr (fun u => inProt u.pc) c.reqs i t
        { t with pc := RPC.finished, retv := some t.err } hget
        (by simp [inProt, hpc]) (by simp [inProt])
      rw [hmu, if_pos rfl] at h1
      have h1c : c.reqs.countP (fun u => inProt u.pc) = 1 := h1
      omega
    · show c.counter = (c.reqs.set i _).countP (fun u => inMid u.pc)
      rw [countP_set_same _ _ _ _ _ hget (by simp [inMid, hpc])]
      exact h2
    · show c.errs.Perm (((c.reqs.set i _).filter (fun u => pastAppendP u.pc)).map RThread.err)
      have hmf := map_filter_set_of_true (fun u => pastAppendP u.pc) RThread.err c.reqs i t
        { t with pc := RPC.finished, retv := some t.err } hget (by simp [pastAppendP, hpc])
        (by simp [pastAppendP]) rfl
      rw [hmf]
      exact h3
    · exact hall _ (by simp [threadOk, runErrOf, e1, e2, e3, e4, e5, e6, e7])
  | finished => simp [reqStep, hpc] at h
  | rejected => simp [reqStep, hpc] at h

/-- Unfolding equation of `lstep` for a request action. -/
theorem lstep_req (c : LConf) (i : Nat) :
    lstep c (.req i) = if c.crashed = true then none else
      match c.reqs[i]? with
      | some t => reqStep c t i
      | none => none := rfl

/-- Unfolding equation of `lstep` for `Quit()`. -/
theorem lstep_quitCall (c : LConf) :
    lstep c .quitCall = if c.crashed = true then none
      else if c.quitted = true then some { c with crashed := true }
      else some { c with quitted := true, exitRequested := true } := rfl

/-- Unfolding equation of `lstep` for the idle timer firing. -/
theorem lstep_timerFire (c : LConf) :
    lstep c .timerFire = if c.crashed = true then none
      else if c.timerArmed = true ∧ ¬ c.timerFired = true then
        some { c with timerFired := true }
      else none := rfl

/-- Unfolding equation of `lstep` for `Wait` entering its select loop. -/
theorem lstep_wEnter (c : LConf) :
    lstep c .wEnter = if c.crashed = true then none
      else if c.wpc = WPC.wEntry then some { c with wpc := WPC.wSelect, timerArmed := true }
      else none := rfl

/-- Unfolding equation of `lstep` for the started select branch. -/
theorem lstep_wSelStarted (c : LConf) :
    lstep c .wSelStarted = if c.crashed = true then none
      else if c.wpc = WPC.wSelect ∧ c.started = true then some { c with wpc := WPC.wDrain }
      else none := rfl

/-- Unfolding equation of `lstep` for the quitted select branch. -/
theorem lstep_wSelQuitted (c : LConf) :
    lstep c .wSelQuitted = if c.crashed = true then none
      else if c.wpc = WPC.wSelect ∧ c.quitted = true then
        some { c with wpc := WPC.wDone, wret := some WRet.quitNil }
      else none := rfl

/-- Unfolding equation of `lstep` for the timer select branch. -/
theorem lstep_wSelTimer (c : LConf) :
    lstep c .wSelTimer = if c.crashed = true then none
      else if c.wpc = WPC.wSelect ∧ c.timerFired = true then
        some { c with wpc := WPC.wDone, wret := some WRet.timedOut }
      else none := rfl

/-- Unfolding equation of `lstep` for `counter.Wait()` observing zero. -/
theorem lstep_wDrainZero (c : LConf) :
    lstep c .wDrainZero = if c.crashed = true then none
      else if c.wpc = WPC.wDrain ∧ c.counter = 0 then some { c with wpc := WPC.wJoin }
      else none := rfl

/-- Unfolding equation of `lstep` for the final read of `l.errors`. -/
theorem lstep_wJoinErrs (c : LConf) :
    lstep c .wJoinErrs = if c.crashed = true then none
      else if c.wpc = WPC.wJoin then
        some { c with wpc := WPC.wDone, wret := some (WRet.drained (errorsJoin c.errs)) }
      else none := rfl

/-- Preservation of the global invariant by every enabled step. -/
theorem inv_lstep {c c' : LConf} {a : Act} (hI : Inv c) (h : lstep c a = some c') : Inv c' := by
  cases a with
  | req i =>
    rw [lstep_req] at h
    by_cases hcr : c.crashed = true
    · rw [if_pos hcr] at h
      exact absurd h (by simp)
    · rw [if_neg hcr] at h
      cases hget : c.reqs[i]? with
      | none => rw [hget] at h; exact absurd h (by simp)
      | some t => rw [hget] at h; exact inv_reqStep hI hget h
  | quitCall =>
    rw [lstep_quitCall] at h
    by_cases hcr : c.crashed = true
    · rw [if_pos hcr] at h; exact absurd h (by simp)
    rw [if_neg hcr] at h
    by_cases hq : c.quitted = true
    · rw [if_pos hq] at h; injection h with h; subst h
      exact inv_depends hI rfl rfl rfl rfl
    · rw [if_neg hq] at h; injection h with h; subst h
      exact inv_depends hI rfl rfl rfl rfl
  | timerFire =>
    rw [lstep_timerFire] at h
    by_cases hcr : c.crashed = true
    · rw [if_pos hcr] at h; exact absurd h (by simp)
    rw [if_neg hcr] at h
    split at h
    · injection h with h; subst h; exact inv_depends hI rfl rfl rfl rfl
    · exact absurd h (by simp)
  | wEnter =>
    rw [lstep_wEnter] at h
    by_cases hcr : c.crashed = true
    · rw [if_pos hcr] at h; exact absurd h (by simp)
    rw [if_neg hcr] at h
    split at h
    · injection h with h; subst h; exact inv_depends hI rfl rfl rfl rfl
    · exact absurd h (by simp)
  | wSelStarted =>
    rw [lstep_wSelStarted] at h
    by_cases hcr : c.crashed = true
    · rw [if_pos hcr] at h; exact absurd h (by simp)
    rw [if_neg hcr] at h
    split at h
    · injection h with h; subst h; exact inv_depends hI rfl rfl rfl rfl
    · exact absurd h (by simp)
  | wSelQuitted =>
    rw [lstep_wSelQuitted] at h
    by_cases hcr : c.crashed = true
    · rw [if_pos hcr] at h; exact absurd h (by simp)
    rw [if_neg hcr] at h
    split at h
    · injection h with h; subst h; exact inv_depends hI rfl rfl rfl rfl
    · exact absurd h (by simp)
  | wSelTimer =>
    rw [lstep_wSelTimer] at h
    by_cases hcr : c.crashed = true
    · rw [if_pos hcr] at h; exact absurd h (by simp)
    rw [if_neg hcr] at h
    split at h
    · injection h with h; subst h; exact inv_depends hI rfl rfl rfl rfl
    · exact absurd h (by simp)
  | wDrainZero =>
    rw [lstep_wDrainZero] at h
    by_cases hcr : c.crashed = true
    · rw [if_pos hcr] at h; exact absurd h (by simp)
    rw [if_neg hcr] at h
    split at h
    · injection h with h; subst h; exact inv_depends hI rfl rfl rfl rfl
    · exact absurd h (by simp)
  | wJoinErrs =>
    rw [lstep_wJoinErrs] at h
    by_cases hcr : c.crashed = true
    · rw [if_pos hcr] at h; exact absurd h (by simp)
    rw [if_neg hcr] at h
    split at h
    · injection h with h; subst h; exact inv_depends hI rfl rfl rfl rfl
    · exact absurd h (by simp)

/-- The invariant holds along every schedule. -/
theorem inv_lrun {acts : List Act} : ∀ {c c' : LConf},
    Inv c → lrun c acts = some c' → Inv c' := by
  induction acts with
  | nil => intro c c' hI h; simp [lrun] at h; rw [← h]; exact hI
  | cons a rest ih =>
    intro c c' hI h
    simp only [lrun] at h
    cases hs : lstep c a with
    | none => rw [hs] at h; simp at h
    | some c1 =>
      rw [hs] at h
      exact ih (inv_lstep hI hs) h

/-- Every initial thread is at its quit check. -/
theorem linit_reqs_pc {specs : List (Option String × Option String)} {t : RThread}
    (ht : t ∈ (linit specs).reqs) : t.pc = RPC.atCheck := by
  simp only [linit] at ht
  obtain ⟨p, _, rfl⟩ := List.mem_map.mp ht
  rfl

/-- The invariant holds at the initial configuration. -/
theorem inv_linit (specs : List (Option String × Option String)) : Inv (linit specs) := by
  refine ⟨?_, ?_, ?_, ?_⟩
  · show (specs.map initThread).countP (fun u => inProt u.pc) = 0
    apply List.countP_eq_zero.mpr
    intro u hu
    obtain ⟨p, _, rfl⟩ := List.mem_map.mp hu
    simp [initThread, inProt]
  · show (0 : Nat) = (specs.map initThread).countP (fun u => inMid u.pc)
    symm
    apply List.countP_eq_zero.mpr
    intro u hu
    obtain ⟨p, _, rfl⟩ := List.mem_map.mp hu
    simp [initThread, inMid]
  · show List.Perm ([] : List (Option String)) _
    have hf : (specs.map initThread).filter (fun u => pastAppendP u.pc) = [] := by
      apply List.filter_eq_nil.mpr
      intro u hu
      obtain ⟨p, _, rfl⟩ := List.mem_map.mp hu
      simp [initThread, pastAppendP]
    show List.Perm ([] : List (Option String))
      (((specs.map initThread).filter (fun u => pastAppendP u.pc)).map RThread.err)
    rw [hf]
    simp
  · intro t ht
    simp only [linit] at ht
    obtain ⟨p, _, rfl⟩ := List.mem_map.mp ht
    simp [threadOk, initThread]

/-! ### Properties of `errors.Join` -/

/-- The join `errors.Join` returns nil exactly when every recorded error is nil. -/
theorem errorsJoin_eq_none_iff (es : List (Option String)) :
    errorsJoin es = none ↔ ∀ a ∈ es, a = none := by
  simp only [errorsJoin]
  by_cases hemp : (es.filterMap id).isEmpty = true
  · rw [if_pos hemp]
    rw [List.isEmpty_iff, List.filterMap_eq_nil] at hemp
    simpa using hemp
  · rw [if_neg hemp]
    rw [List.isEmpty_iff, List.filterMap_eq_nil] at hemp
    simpa using hemp

/-- The individual messages inside `errors.Join es` are exactly the
non-nil entries of `es`, in order, with no deduplication. -/
theorem aggMsgs_errorsJoin (es : List (Option String)) :
    aggMsgs (errorsJoin es) = es.filterMap id := by
  simp only [errorsJoin]
  by_cases hemp : (es.filterMap id).isEmpty = true
  · rw [if_pos hemp]
    rw [List.isEmpty_iff] at hemp
    simp [aggMsgs, hemp]
  · rw [if_neg hemp]
    simp [aggMsgs]

/-! ## Claim theorems -/

/-- C1: For every Lifecycle coordinator (any number of request goroutines
with any collaborator results) and every interleaving of
HandleApply/Start/RunDone/Quit/Wait steps, at most one run is inside its
protected section (authorization check plus apply, i.e. between the return
of `Start()` and its `RunDone()`'s unlock) at any reachable instant. -/
theorem C1_protected_section_mutual_exclusion
    (specs : List (Option String × Option String)) (acts : List Act) (c : LConf)
    (h : lrun (linit specs) acts = some c) : protCount c ≤ 1 := by
  have hI := inv_lrun (inv_linit specs) h
  rw [hI.1]
  by_cases hmu : c.appMu = true
  · rw [if_pos hmu]
  · rw [if_neg hmu]
    omega

def c1specs : List (Option String × Option String) := [(none, none), (none, none)]

def c1acts : List Act :=
  [Act.req 0, Act.req 0, Act.req 0, Act.req 0, Act.req 1, Act.req 1, Act.req 1]

def c1conf : LConf := (lrun (linit c1specs) c1acts).getD (linit [])

/-- Witness for C1: two concurrent requests, the first inside its
protected section, the second queued behind the gate. -/
theorem C1_witness :
    lrun (linit c1specs) c1acts = some c1conf ∧ protCount c1conf = 1 ∧ protCount c1conf ≤ 1 :=
  ⟨by decide, by decide, C1_protected_section_mutual_exclusion c1specs c1acts c1conf (by decide)⟩

/-- C5: after every accepted request has run to completion, the aggregate
the drain branch of `Wait()` returns is `errors.Join` of exactly the
errors passed to `RunDone`: nil iff every run reported nil, and its
message multiset is exactly the multiset of non-nil reported errors (no
deduplication, no loss). -/
theorem C5_aggregate_joins_exactly_reported_errors
    (specs : List (Option String × Option String)) (acts : List Act) (c1 c : LConf)
    (h : lrun (linit specs) acts = some c1)
    (hfin : ∀ t ∈ c1.reqs, t.pc = RPC.finished)
    (hd : lstep c1 Act.wJoinErrs = some c) :
    c.wret = some (WRet.drained (errorsJoin c1.errs)) ∧
    (errorsJoin c1.errs = none ↔ ∀ t ∈ c1.reqs, t.err = none) ∧
    (aggMsgs (errorsJoin c1.errs)).Perm (c1.reqs.filterMap RThread.err) := by
  have hI := inv_lrun (inv_linit specs) h
  have hperm : c1.errs.Perm (c1.reqs.map RThread.err) := by
    have h3 := hI.2.2.1
    have hfl : c1.reqs.filter (fun u => pastAppendP u.pc) = c1.reqs :=
      List.filter_eq_self.mpr (fun t ht => by simp [pastAppendP, hfin t ht])
    simp only [recordedErrs] at h3
    rw [hfl] at h3
    exact h3
  refine ⟨?_, ?_, ?_⟩
  · rw [lstep_wJoinErrs] at hd
    by_cases hcr : c1.crashed = true
    · rw [if_pos hcr] at hd
      exact absurd hd (by simp)
    rw [if_neg hcr] at hd
    by_cases hw : c1.wpc = WPC.wJoin
    · rw [if_pos hw] at hd
      injection hd with hd
      rw [← hd]
    · rw [if_neg hw] at hd
      exact absurd hd (by simp)
  · rw [errorsJoin_eq_none_iff]
    constructor
    · intro hall t ht
      exact hall t.err (hperm.mem_iff.mpr (List.mem_map_of_mem RThread.err ht))
    · intro hall a ha
      obtain ⟨t, ht, rfl⟩ := List.mem_map.mp (hperm.mem_iff.mp ha)
      exact hall t ht
  · rw [aggMsgs_errorsJoin]
    have := hperm.filterMap id
    rw [List.filterMap_map] at this
    simpa using this

def c5specs : List (Option String × Option String) :=
  [(none, some ("boom")), (none, some ("boom")), (none, none)]

def c5acts : List Act :=
  [Act.wEnter,
   Act.req 0, Act.req 0, Act.req 0, Act.req 0, Act.req 0, Act.req 0, Act.req 0, Act.req 0, Act.req 0,
   Act.req 1, Act.req 1, Act.req 1, Act.req 1, Act.req 1, Act.req 1, Act.req 1, Act.req 1, Act.req 1,
   Act.req 2, Act.req 2, Act.req 2, Act.req 2, Act.req 2, Act.req 2, Act.req 2, Act.req 2, Act.req 2,
   Act.wSelStarted, Act.wDrainZero]

def c5mid : LConf := (lrun (linit c5specs) c5acts).getD (linit [])

def c5fin : LConf := (lstep c5mid Act.wJoinErrs).getD (linit [])

/-- Witness for C5: three sequential runs, two failing with the same
message; the aggregate keeps both copies and drops the nil. -/
theorem C5_witness :
    lrun (linit c5specs) c5acts = some c5mid ∧
    (∀ t ∈ c5mid.reqs, t.pc = RPC.finished) ∧
    lstep c5mid Act.wJoinErrs = some c5fin ∧
    c5fin.wret = some (WRet.drained (errorsJoin c5mid.errs)) ∧
    errorsJoin c5mid.errs = some (GoError.joinE ["boom", "boom"]) :=
  ⟨by decide, by decide, by decide,
    (C5_aggregate_joins_exactly_reported_errors c5specs c5acts c5mid c5fin
      (by decide) (by decide) (by decide)).1,
    by decide⟩

/-- C8: whenever the blocked `Wait()` flow observes the outstanding
counter at zero (its `counter.Wait()` step fires), every run that ever
started has already executed its `RunDone` append, so no completed run's
error is missing from the list the subsequent join reads; moreover the
observation step itself does not change the error list. -/
theorem C8_rundone_atomic_wrt_wait
    (specs : List (Option String × Option String)) (acts : List Act) (c c' : LConf)
    (h : lrun (linit specs) acts = some c)
    (hd : lstep c Act.wDrainZero = some c') :
    c.counter = 0 ∧
    (∀ t ∈ c.reqs, pastIncrP t.pc = true → pastAppendP t.pc = true) ∧
    c'.errs = c.errs := by
  have hI := inv_lrun (inv_linit specs) h
  rw [lstep_wDrainZero] at hd
  by_cases hcr : c.crashed = true
  · rw [if_pos hcr] at hd
    exact absurd hd (by simp)
  rw [if_neg hcr] at hd
  by_cases hc : c.wpc = WPC.wDrain ∧ c.counter = 0
  · rw [if_pos hc] at hd
    refine ⟨hc.2, ?_, ?_⟩
    · intro t ht hpi
      have h2 : c.counter = c.reqs.countP (fun u => inMid u.pc) := hI.2.1
      have hz : c.reqs.countP (fun u => inMid u.pc) = 0 := by omega
      have hnm := List.countP_eq_zero.mp hz t ht
      cases hpc : t.pc <;> simp_all [pastIncrP, inMid, pastAppendP]
    · injection hd with hd
      rw [← hd]
  · rw [if_neg hc] at hd
    exact absurd hd (by simp)

def c8specs : List (Option String × Option String) := [(none, some ("boom"))]

def c8acts : List Act :=
  [Act.wEnter,
   Act.req 0, Act.req 0, Act.req 0, Act.req 0, Act.req 0, Act.req 0, Act.req 0, Act.req 0, Act.req 0,
   Act.wSelStarted]

def c8mid : LConf := (lrun (linit c8specs) c8acts).getD (linit [])

def c8fin : LConf := (lstep c8mid Act.wDrainZero).getD (linit [])

/-- Witness for C8: one completed run; the drain observation fires with
the error already appended. -/
theorem C8_witness :
    lrun (linit c8specs) c8acts = some c8mid ∧
    lstep c8mid Act.wDrainZero = some c8fin ∧
    c8mid.counter = 0 ∧ c8fin.errs = c8mid.errs ∧ c8mid.errs = [some ("boom")] :=
  ⟨by decide, by decide,
    (C8_rundone_atomic_wrt_wait c8specs c8acts c8mid c8fin (by decide) (by decide)).1,
    (C8_rundone_atomic_wrt_wait c8specs c8acts c8mid c8fin (by decide) (by decide)).2.2,
    by decide⟩

/-- C6: a HandleApply call that observes `QuitRequested()` as true
returns the distinguished "application exit requested" failure and leaves
the coordinator untouched: the step changes nothing but that thread's pc
and reply (error list, counter, mutex, channels all unchanged), and a
rejected thread has never called Start, the authorizer, the proxy applier
or RunDone. -/
theorem C6_rejected_request_no_side_effects
    (specs : List (Option String × Option String)) (acts : List Act) (c : LConf)
    (i : Nat) (t : RThread) (h : lrun (linit specs) acts = some c) :
    (c.reqs[i]? = some t → t.pc = RPC.atCheck → c.exitRequested = true →
      c.crashed = false →
      ∀ c', lstep c (Act.req i) = some c' →
        c'.errs = c.errs ∧ c'.counter = c.counter ∧ c'.appMu = c.appMu ∧
        c'.started = c.started ∧ c'.quitted = c.quitted ∧
        c'.reqs = c.reqs.set i
          { t with pc := RPC.rejected, retv := some (some exitingMsg) }) ∧
    (t ∈ c.reqs → t.pc = RPC.rejected →
      t.startCalls = 0 ∧ t.authCalls = 0 ∧ t.applyCalls = 0 ∧ t.appends = 0 ∧
      t.err = none ∧ t.recorded = none ∧ t.retv = some (some exitingMsg)) := by
  have hI := inv_lrun (inv_linit specs) h
  constructor
  · intro hget hpc hq hcr c' hs
    rw [lstep_req] at hs
    rw [if_neg (by simp [hcr])] at hs
    rw [hget] at hs
    simp only [reqStep, hpc] at hs
    rw [if_pos hq] at hs
    injection hs with hs
    rw [← hs]
    exact ⟨rfl, rfl, rfl, rfl, rfl, rfl⟩
  · intro hmem hpc
    have hok := hI.2.2.2 t hmem
    simp only [threadOk, hpc, Bool.and_eq_true, beq_iff_eq, and_assoc] at hok
    exact ⟨hok.2.1, hok.2.2.1, hok.2.2.2.1, hok.2.2.2.2.1, hok.1,
      hok.2.2.2.2.2.1, hok.2.2.2.2.2.2⟩

def c6specs : List (Option String × Option String) := [(some ("denied"), some ("boom"))]

def c6acts : List Act := [Act.quitCall]

def c6mid : LConf := (lrun (linit c6specs) c6acts).getD (linit [])

def c6fin : LConf := (lstep c6mid (Act.req 0)).getD (linit [])

/-- Witness for C6: a request arriving after `Quit()` is rejected with no
state change and no collaborator call. -/
theorem C6_witness :
    lrun (linit c6specs) c6acts = some c6mid ∧
    lstep c6mid (Act.req 0) = some c6fin ∧
    c6fin.errs = c6mid.errs ∧ c6fin.counter = c6mid.counter ∧
    (c6fin.reqs.getD 0 (initThread (none, none))).retv = some (some exitingMsg) ∧
    (c6fin.reqs.getD 0 (initThread (none, none))).authCalls = 0 :=
  ⟨by decide, by decide,
    ((C6_rejected_request_no_side_effects c6specs c6acts c6mid 0
        (initThread (some ("denied"), some ("boom"))) (by decide)).1
      (by decide) (by decide) (by decide) (by decide) c6fin (by decide)).1,
    ((C6_rejected_request_no_side_effects c6specs c6acts c6mid 0
        (initThread (some ("denied"), some ("boom"))) (by decide)).1
      (by decide) (by decide) (by decide) (by decide) c6fin (by decide)).2.1,
    by decide, by decide⟩

/-- C7: every accepted request that has returned performed exactly one
authorization check, invoked the proxy applier exactly when authorization
succeeded (and then exactly once), called `RunDone` exactly once, and the
error it recorded via `RunDone` is the authorization error on denial, the
apply error on apply failure, nil on success - the same value returned to
the D-Bus caller. -/
theorem C7_accepted_request_effects
    (specs : List (Option String × Option String)) (acts : List Act) (c : LConf)
    (t : RThread) (h : lrun (linit specs) acts = some c)
    (ht : t ∈ c.reqs) (hfin : t.pc = RPC.finished) :
    t.startCalls = 1 ∧ t.authCalls = 1 ∧
    t.applyCalls = (if t.authRes.isSome then 0 else 1) ∧
    t.appends = 1 ∧ t.err = runErrOf t ∧
    t.recorded = some t.err ∧ t.retv = some t.err := by
  have hok := (inv_lrun (inv_linit specs) h).2.2.2 t ht
  simp only [threadOk, hfin, Bool.and_eq_true, beq_iff_eq, and_assoc] at hok
  exact ⟨hok.2.1, hok.2.2.1, hok.2.2.2.1, hok.2.2.2.2.1, hok.1,
    hok.2.2.2.2.2.1, hok.2.2.2.2.2.2⟩

def c7specs : List (Option String × Option String) :=
  [(some ("denied"), some ("never")), (none, some ("boom"))]

def c7acts : List Act :=
  [Act.req 0, Act.req 0, Act.req 0, Act.req 0, Act.req 0, Act.req 0, Act.req 0, Act.req 0,
   Act.req 1, Act.req 1, Act.req 1, Act.req 1, Act.req 1, Act.req 1, Act.req 1, Act.req 1, Act.req 1]

def c7conf : LConf := (lrun (linit c7specs) c7acts).getD (linit [])

def c7deny : RThread := (c7conf.reqs.getD 0 (initThread (none, none)))

def c7fail : RThread := (c7conf.reqs.getD 1 (initThread (none, none)))

/-- Witness for C7: a denied request records and returns the
authorization error without calling the applier; a failing apply records
and returns the apply error. -/
theorem C7_witness :
    lrun (linit c7specs) c7acts = some c7conf ∧
    c7deny ∈ c7conf.reqs ∧ c7deny.pc = RPC.finished ∧
    c7fail ∈ c7conf.reqs ∧ c7fail.pc = RPC.finished ∧
    (c7deny.authCalls = 1 ∧ c7deny.applyCalls = 0 ∧ c7deny.appends = 1 ∧
      c7deny.recorded = some c7deny.err ∧ c7deny.retv = some c7deny.err) ∧
    c7deny.err = some ("denied") ∧
    (c7fail.applyCalls = if c7fail.authRes.isSome then 0 else 1) ∧
    c7fail.err = some ("boom") :=
  ⟨by decide, by decide, by decide, by decide, by decide,
    (fun hc => ⟨hc.2.1, by rw [hc.2.2.1]; decide, hc.2.2.2.1, hc.2.2.2.2.2.1, hc.2.2.2.2.2.2⟩)
      (C7_accepted_request_effects c7specs c7acts c7conf c7deny
        (by decide) (by decide) (by decide)),
    by decide,
    (C7_accepted_request_effects c7specs c7acts c7conf c7fail
      (by decide) (by decide) (by decide)).2.2.1,
    by decide⟩

/-- C10: a request that has already passed the quit check is never
cancelled by a later `Quit()`: every step of a request goroutine past
`atCheck` is insensitive to the quit flag and quitted channel (the step
from the quit-flagged state is the same step), and every request that
reaches `finished` - no matter how `Quit()` was interleaved after its
check - called `Start()` once, ran authorization, called `RunDone` once,
and its recorded error is present in the aggregate error list.
Consequently the set of accepted runs may include runs whose `Start()`
happens only after `Quit()`: the concrete schedule below interleaves
`Quit()` between the quit check and `Start()`, and the run still executes
in full, its error reaching the aggregate. -/
theorem C10_quit_does_not_cancel_accepted_requests :
    (∀ (c : LConf) (i : Nat) (t : RThread), c.reqs[i]? = some t → t.pc ≠ RPC.atCheck →
      lstep { c with exitRequested := true, quitted := true } (Act.req i) =
        (lstep c (Act.req i)).map
          (fun c2 => { c2 with exitRequested := true, quitted := true })) ∧
    (∀ (specs : List (Option String × Option String)) (acts : List Act) (c : LConf)
      (t : RThread), lrun (linit specs) acts = some c → t ∈ c.reqs →
      t.pc = RPC.finished →
      t.startCalls = 1 ∧ t.authCalls = 1 ∧ t.appends = 1 ∧ t.err ∈ c.errs) := by
  constructor
  · intro c i t hget hne
    rw [lstep_req, lstep_req]
    show (if c.crashed = true then none
      else match c.reqs[i]? with
        | some t => reqStep { c with exitRequested := true, quitted := true } t i
        | none => none) = _
    by_cases hcr : c.crashed = true
    · rw [if_pos hcr, if_pos hcr]
      rfl
    rw [if_neg hcr, if_neg hcr, hget]
    cases hpc : t.pc with
    | atCheck => exact absurd hpc hne
    | atIncr => simp [reqStep, hpc]
    | atOnce => simp [reqStep, hpc]
    | atLock =>
      simp only [reqStep, hpc]
      by_cases hmu : c.appMu = true
      · show (if ({ c with exitRequested := true, quitted := true } : LConf).appMu = true
          then _ else _) = _
        rw [if_pos hmu, if_pos hmu]
        rfl
      · show (if ({ c with exitRequested := true, quitted := true } : LConf).appMu = true
          then _ else _) = _
        rw [if_neg hmu, if_neg hmu]
        rfl
    | atAuth =>
      cases har : t.authRes with
      | none => simp [reqStep, hpc, har]
      | some e => simp [reqStep, hpc, har]
    | atApply => simp [reqStep, hpc]
    | atAppend => simp [reqStep, hpc]
    | atDecr => simp [reqStep, hpc]
    | atUnlock => simp [reqStep, hpc]
    | finished => simp [reqStep, hpc]
    | rejected => simp [reqStep, hpc]
  · intro specs acts c t h ht hfin
    have hI := inv_lrun (inv_linit specs) h
    have hok := hI.2.2.2 t ht
    simp only [threadOk, hfin, Bool.and_eq_true, beq_iff_eq, and_assoc] at hok
    refine ⟨hok.2.1, hok.2.2.1, hok.2.2.2.2.1, ?_⟩
    have hperm := hI.2.2.1
    apply hperm.mem_iff.mpr
    simp only [recordedErrs]
    exact List.mem_map_of_mem RThread.err
      (List.mem_filter.mpr ⟨ht, by simp [pastAppendP, hfin]⟩)

def c10specs : List (Option String × Option String) := [(none, some ("boom"))]

def c10pre : List Act := [Act.req 0, Act.quitCall]

def c10mid : LConf := (lrun (linit c10specs) c10pre).getD (linit [])

def c10acts : List Act :=
  [Act.req 0, Act.quitCall, Act.req 0, Act.req 0, Act.req 0, Act.req 0, Act.req 0,
   Act.req 0, Act.req 0, Act.req 0]

def c10fin : LConf := (lrun (linit c10specs) c10acts).getD (linit [])

/-- Witness for C10: `Quit()` fires after the quit check but before
`Start()`; the request still starts, runs in full, and its error reaches
the aggregate while the quit flag is set. -/
theorem C10_witness :
    lrun (linit c10specs) c10pre = some c10mid ∧
    c10mid.exitRequested = true ∧
    (c10mid.reqs.getD 0 (initThread (none, none))).pc = RPC.atIncr ∧
    (c10mid.reqs.getD 0 (initThread (none, none))).startCalls = 0 ∧
    lrun (linit c10specs) c10acts = some c10fin ∧
    (c10fin.reqs.getD 0 (initThread (none, none))).pc = RPC.finished ∧
    c10fin.errs = [some ("boom")] ∧
    ((c10fin.reqs.getD 0 (initThread (none, none))).startCalls = 1 ∧
      (c10fin.reqs.getD 0 (initThread (none, none))).authCalls = 1 ∧
      (c10fin.reqs.getD 0 (initThread (none, none))).appends = 1 ∧
      (c10fin.reqs.getD 0 (initThread (none, none))).err ∈ c10fin.errs) :=
  ⟨by decide, by decide, by decide, by decide, by decide, by decide, by decide,
    (C10_quit_does_not_cancel_accepted_requests).2 c10specs c10acts c10fin
      (c10fin.reqs.getD 0 (initThread (none, none)))
      (by decide) (by decide) (by decide)⟩

def c2specs : List (Option String × Option String) := [(none, some ("boom"))]

def c2pre : List Act := [Act.wEnter, Act.req 0, Act.req 0, Act.req 0, Act.req 0]

def c2post : List Act :=
  [Act.quitCall, Act.wSelQuitted, Act.req 0, Act.req 0, Act.req 0, Act.req 0, Act.req 0]

def c2mid : LConf := (lrun (linit c2specs) c2pre).getD (linit [])

def c2fin : LConf := (lrun c2mid c2post).getD (linit [])

/-- C2 (divergence): `Quit()` is called while a run is in flight (it has
returned from `Start()`: counter is 1, the gate is held, `quitted` not yet
closed).  Because `Wait`'s `select` has both `<-l.started` and
`<-l.quitted` ready, Go may commit to the quitted case: `Wait` then
returns nil immediately - before the in-flight run's `RunDone` - and the
run's error "boom", though recorded, is absent from what `Wait` (and
`App.Wait`) returned.  This contradicts the claim that `Wait` blocks
until that run's `RunDone` and includes its error. -/
theorem C2_quit_race_wait_drops_inflight_error :
    lrun (linit c2specs) c2pre = some c2mid ∧
    c2mid.started = true ∧ c2mid.counter = 1 ∧ c2mid.quitted = false ∧
    c2mid.wpc = WPC.wSelect ∧
    lrun c2mid c2post = some c2fin ∧
    c2fin.wret = some WRet.quitNil ∧
    WRet.toErr WRet.quitNil = none ∧
    appWait (WRet.toErr WRet.quitNil) = none ∧
    c2fin.errs = [some ("boom")] := by decide

def c3one : LConf := (lrun (linit []) [Act.quitCall]).getD (linit [])

def c3fin : LConf := (lrun (linit []) [Act.quitCall, Act.quitCall]).getD (linit [])

/-- C3 (divergence): the first `Quit()` closes the `quitted` channel and
sets the flag; a second `Quit()` reaches `close(l.quitted)` on an
already-closed channel, which is a Go run-time panic - the call does not
succeed and the coordinator is not left unchanged.  The guard against
firing the one-shot signal twice that the spec requires does not exist in
the code. -/
theorem C3_second_quit_panics :
    lrun (linit []) [Act.quitCall] = some c3one ∧
    c3one.quitted = true ∧ c3one.exitRequested = true ∧ c3one.crashed = false ∧
    lrun (linit []) [Act.quitCall, Act.quitCall] = some c3fin ∧
    c3fin.crashed = true := by decide

def c4specs : List (Option String × Option String) := [(none, some ("boom"))]

def c4acts : List Act :=
  [Act.wEnter, Act.req 0, Act.req 0, Act.req 0, Act.req 0, Act.timerFire, Act.wSelTimer]

def c4fin : LConf := (lrun (linit c4specs) c4acts).getD (linit [])

/-- C4 (divergence on the first half, confirmation of the second): a run
has started (the `started` channel is closed, the run is in flight), yet
once the idle timer has also fired Go's `select` may commit to the
`<-timer.C` case, so `Wait` returns `ErrTimeoutReached` even though a run
started - the timeout indication is reachable with started runs.  The
second half of the claim holds: `App.Wait` maps the timeout indication to
a clean nil return. -/
theorem C4_timer_race_after_start :
    lrun (linit c4specs) c4acts = some c4fin ∧
    c4fin.started = true ∧ c4fin.counter = 1 ∧
    c4fin.wret = some WRet.timedOut ∧
    WRet.toErr WRet.timedOut = some GoError.timeoutReached ∧
    appWait (some GoError.timeoutReached) = none ∧
    appWait (some (GoError.apperr "boom")) = some (GoError.apperr "boom") := by decide

/-! ## The mutex-plus-context-cancellation variant (internal/app/app.go)

`proxyManagerBus.Apply` (lines 63-85) holds `b.mu` for the whole body;
completion is signalled by `b.cancel(err)` on a `context.WithCancelCause`
context: only the FIRST cancel sets the cause and closes `Done()`.
`App.Wait` (lines 157-173) selects between a timer and `ctx.Done()`,
mapping a `context.Canceled` cause (from `cancel(nil)`) to nil. -/

/-- Program counter of one mutex-variant `Apply` call:
`mLock` (line 65 `b.mu.Lock()`), `mSetRun` (line 74 `b.running = true`),
`mAuth` (line 77), `mApply` (line 81), `mSetNotRun` then `mCancel`
(the deferred `b.running = false; b.cancel(err)` of line 73),
`mUnlock` (the deferred `b.mu.Unlock()` of line 66), `mDone`. -/
inductive MPC where
  | mLock | mSetRun | mAuth | mApply | mSetNotRun | mCancel | mUnlock | mDone
deriving DecidableEq

/-- One mutex-variant request goroutine. -/
structure MThread where
  pc : MPC
  authRes : Option String
  applyRes : Option String
  err : Option String := none
deriving DecidableEq

/-- Program counter of the mutex-variant `App.Wait` flow: entry, the
select, the `<-ctx.Done()` inside the timer branch (line 163), done. -/
inductive MWPC where
  | mwEntry | mwSelect | mwAwait | mwDone
deriving DecidableEq

/-- Mutex-variant global configuration.  `cause` is the context
cancellation state: `none` while not cancelled; `some v` once cancelled,
where `v = none` stands for `context.Canceled` (a `cancel(nil)`) and
`v = some m` for a real cause.  Later cancels are no-ops. -/
structure MConf where
  mu : Bool
  running : Bool
  cause : Option (Option String)
  reqs : List MThread
  timerArmed : Bool
  timerFired : Bool
  mwpc : MWPC
  mwret : Option (Option String)
deriving DecidableEq

/-- Scheduler actions of the mutex-variant system. -/
inductive MAct where
  | req (i : Nat)
  | timerFire
  | wEnter
  | wSelTimer
  | wSelDone
  | wAwaitDone
deriving DecidableEq

/-- One atomic step of mutex-variant `Apply` goroutine `i`. -/
def mreqStep (c : MConf) (t : MThread) (i : Nat) : Option MConf :=
  match t.pc with
  | .mLock =>
      if c.mu then none
      else some { c with mu := true, reqs := c.reqs.set i { t with pc := MPC.mSetRun } }
  | .mSetRun =>
      some { c with running := true, reqs := c.reqs.set i { t with pc := MPC.mAuth } }
  | .mAuth =>
      match t.authRes with
      | some e =>
          some { c with reqs := c.reqs.set i { t with pc := MPC.mSetNotRun, err := some e } }
      | none =>
          some { c with reqs := c.reqs.set i { t with pc := MPC.mApply, err := none } }
  | .mApply =>
      some { c with reqs := c.reqs.set i { t with pc := MPC.mSetNotRun, err := t.applyRes } }
  | .mSetNotRun =>
      some { c with running := false, reqs := c.reqs.set i { t with pc := MPC.mCancel } }
  | .mCancel =>
      let cause' := if c.cause.isSome then c.cause else some t.err
      some { c with cause := cause', reqs := c.reqs.set i { t with pc := MPC.mUnlock } }
  | .mUnlock =>
      some { c with mu := false, reqs := c.reqs.set i { t with pc := MPC.mDone } }
  | .mDone => none

/-- The mutex-variant small-step function. -/
def mstep (c : MConf) (a : MAct) : Option MConf :=
  match a with
  | .req i =>
      match c.reqs[i]? with
      | some t => mreqStep c t i
      | none => none
  | .timerFire =>
      if c.timerArmed ∧ ¬ c.timerFired then some { c with timerFired := true } else none
  | .wEnter =>
      if c.mwpc = MWPC.mwEntry then some { c with mwpc := MWPC.mwSelect, timerArmed := true }
      else none
  | .wSelTimer =>
      -- Wait, timer case (lines 160-165): if an apply is running, block on
      -- ctx.Done() first; either way the branch returns nil.
      if c.mwpc = MWPC.mwSelect ∧ c.timerFired then
        if c.running then some { c with mwpc := MWPC.mwAwait }
        else some { c with mwpc := MWPC.mwDone, mwret := some none }
      else none
  | .wSelDone =>
      -- Wait, ctx.Done() case (lines 166-171): return the cause unless it
      -- is context.Canceled, in which case return nil.
      if c.mwpc = MWPC.mwSelect ∧ c.cause.isSome then
        some { c with mwpc := MWPC.mwDone, mwret := some (c.cause.getD none) }
      else none
  | .wAwaitDone =>
      if c.mwpc = MWPC.mwAwait ∧ c.cause.isSome then
        some { c with mwpc := MWPC.mwDone, mwret := some none }
      else none

/-- Run a schedule of the mutex-variant system. -/
def mrun (c : MConf) : List MAct → Option MConf
  | [] => some c
  | a :: rest => (mstep c a).bind (fun c' => mrun c' rest)

/-- A fresh mutex-variant request goroutine. -/
def minitThread (p : Option String × Option String) : MThread :=
  { pc := MPC.mLock, authRes := p.1, applyRes := p.2 }

/-- Initial mutex-variant configuration (`New`, lines 88-152). -/
def minit (specs : List (Option String × Option String)) : MConf :=
  { mu := false, running := false, cause := none, reqs := specs.map minitThread,
    timerArmed := false, timerFired := false, mwpc := MWPC.mwEntry, mwret := none }

/-- The mutex-variant protected section: everything between `mu.Lock()`
succeeding and the deferred `mu.Unlock()` - in particular the
authorization check and the apply call. -/
def inMProt : MPC → Bool
  | .mSetRun | .mAuth | .mApply | .mSetNotRun | .mCancel | .mUnlock => true
  | _ => false

/-- Number of mutex-variant goroutines inside the protected section. -/
def mProtCount (c : MConf) : Nat := c.reqs.countP (fun t => inMProt t.pc)

/-- Mutex-variant invariant: the mutex is held by exactly the goroutines
inside the protected section. -/
def MInv (c : MConf) : Prop := mProtCount c = if c.mu then 1 else 0

/-- Preservation of `MInv` by one mutex-variant step. -/
theorem minv_mstep {c c' : MConf} {a : MAct} (hI : MInv c) (h : mstep c a = some c') :
    MInv c' := by
  cases a with
  | req i =>
    have h : (match c.reqs[i]? with
      | some t => mreqStep c t i
      | none => none) = some c' := h
    cases hget : c.reqs[i]? with
    | none => rw [hget] at h; exact absurd h (by simp)
    | some t =>
      rw [hget] at h
      have hmem : t ∈ c.reqs := List.getElem?_mem hget
      cases hpc : t.pc with
      | mLock =>
        simp only [mreqStep, hpc] at h
        by_cases hmu : c.mu = true
        · rw [if_pos hmu] at h
          exact absurd h (by simp)
        · rw [if_neg hmu] at h
          injection h with h
          subst h
          have hIc : c.reqs.countP (fun u => inMProt u.pc) = if c.mu = true then 1 else 0 := hI
          rw [if_neg hmu] at hIc
          show (c.reqs.set i _).countP (fun u => inMProt u.pc) = 1
          rw [countP_set_incr _ _ _ _ _ hget (by simp [inMProt, hpc]) (by simp [inMProt])]
          omega
      | mSetRun =>
        simp only [mreqStep, hpc] at h
        injection h with h
        subst h
        show (c.reqs.set i _).countP (fun u => inMProt u.pc) = _
        rw [countP_set_same _ _ _ _ _ hget (by simp [inMProt, hpc])]
        exact hI
      | mAuth =>
        simp only [mreqStep, hpc] at h
        cases har : t.authRes with
        | some e =>
          rw [har] at h
          injection h with h
          subst h
          show (c.reqs.set i _).countP (fun u => inMProt u.pc) = _
          rw [countP_set_same _ _ _ _ _ hget (by simp [inMProt, hpc])]
          exact hI
        | none =>
          rw [har] at h
          injection h with h
          subst h
          show (c.reqs.set i _).countP (fun u => inMProt u.pc) = _
          rw [countP_set_same _ _ _ _ _ hget (by simp [inMProt, hpc])]
          exact hI
      | mApply =>
        simp only [mreqStep, hpc] at h
        injection h with h
        subst h
        show (c.reqs.set i _).countP (fun u => inMProt u.pc) = _
        rw [countP_set_same _ _ _ _ _ hget (by simp [inMProt, hpc])]
        exact hI
      | mSetNotRun =>
        simp only [mreqStep, hpc] at h
        injection h with h
        subst h
        show (c.reqs.set i _).countP (fun u => inMProt u.pc) = _
        rw [countP_set_same _ _ _ _ _ hget (by simp [inMProt, hpc])]
        exact hI
      | mCancel =>
        simp only [mreqStep, hpc] at h
        injection h with h
        subst h
        show (c.reqs.set i _).countP (fun u => inMProt u.pc) = _
        rw [countP_set_same _ _ _ _ _ hget (by simp [inMProt, hpc])]
        exact hI
      | mUnlock =>
        simp only [mreqStep, hpc] at h
        injection h with h
        subst h
        have hpos : 0 < c.reqs.countP (fun u => inMProt u.pc) :=
          List.countP_pos.mpr ⟨t, hmem, by simp [inMProt, hpc]⟩
        have hIc : c.reqs.countP (fun u => inMProt u.pc) = if c.mu = true then 1 else 0 := hI
        have hmu : c.mu = true := by
          by_contra hmu
          rw [if_neg hmu] at hIc
          omega
        rw [hmu, if_pos rfl] at hIc
        show (c.reqs.set i _).countP (fun u => inMProt u.pc) = 0
        have hd := countP_set_decr (fun u => inMProt u.pc) c.reqs i t
          { t with pc := MPC.mDone } hget (by simp [inMProt, hpc]) (by simp [inMProt])
        omega
      | mDone =>
        simp only [mreqStep, hpc] at h
        exact absurd h (by simp)
  | timerFire =>
    have h : (if c.timerArmed = true ∧ ¬ c.timerFired = true then
      some { c with timerFired := true } else none) = some c' := h
    split at h
    · injection h with h; subst h; exact hI
    · exact absurd h (by simp)
  | wEnter =>
    have h : (if c.mwpc = MWPC.mwEntry then
      some { c with mwpc := MWPC.mwSelect, timerArmed := true } else none) = some c' := h
    split at h
    · injection h with h; subst h; exact hI
    · exact absurd h (by simp)
  | wSelTimer =>
    have h : (if c.mwpc = MWPC.mwSelect ∧ c.timerFired = true then
      if c.running = true then some { c with mwpc := MWPC.mwAwait }
      else some { c with mwpc := MWPC.mwDone, mwret := some none } else none) = some c' := h
    split at h
    · split at h
      · injection h with h; subst h; exact hI
      · injection h with h; subst h; exact hI
    · exact absurd h (by simp)
  | wSelDone =>
    have h : (if c.mwpc = MWPC.mwSelect ∧ c.cause.isSome = true then
      some { c with mwpc := MWPC.mwDone, mwret := some (c.cause.getD none) }
      else none) = some c' := h
    split at h
    · injection h with h; subst h; exact hI
    · exact absurd h (by simp)
  | wAwaitDone =>
    have h : (if c.mwpc = MWPC.mwAwait ∧ c.cause.isSome = true then
      some { c with mwpc := MWPC.mwDone, mwret := some none } else none) = some c' := h
    split at h
    · injection h with h; subst h; exact hI
    · exact absurd h (by simp)

/-- The invariant `MInv` holds along every mutex-variant schedule. -/
theorem minv_mrun {acts : List MAct} : ∀ {c c' : MConf},
    MInv c → mrun c acts = some c' → MInv c' := by
  induction acts with
  | nil => intro c c' hI h; simp [mrun] at h; rw [← h]; exact hI
  | cons a rest ih =>
    intro c c' hI h
    simp only [mrun] at h
    cases hs : mstep c a with
    | none => rw [hs] at h; simp at h
    | some c1 =>
      rw [hs] at h
      exact ih (minv_mstep hI hs) h

/-- The invariant `MInv` holds initially. -/
theorem minv_minit (specs : List (Option String × Option String)) : MInv (minit specs) := by
  show (specs.map minitThread).countP (fun u => inMProt u.pc) = _
  rw [List.countP_eq_zero.mpr]
  · rfl
  · intro u hu
    obtain ⟨p, _, rfl⟩ := List.mem_map.mp hu
    simp [minitThread, inMProt]

def c9specs : List (Option String × Option String) := [(none, some ("a")), (none, some ("b"))]

def c9acts : List MAct :=
  [MAct.wEnter,
   MAct.req 0, MAct.req 0, MAct.req 0, MAct.req 0, MAct.req 0, MAct.req 0, MAct.req 0,
   MAct.req 1, MAct.req 1, MAct.req 1, MAct.req 1, MAct.req 1, MAct.req 1, MAct.req 1,
   MAct.wSelDone]

def c9fin : MConf := (mrun (minit c9specs) c9acts).getD (minit [])

/-- C9 (counterexample): in the mutex-plus-context variant, two requests
complete, the first reporting "a", the second reporting "b"; only the
first `cancel` sets the context cause, so `Wait` returns just "a" - the
second run's reported completion is silently dropped from the result.
The two variants therefore do not satisfy the same contract. -/
theorem C9_counterexample_mutex_variant_drops_completion :
    mrun (minit c9specs) c9acts = some c9fin ∧
    (c9fin.reqs.getD 1 (minitThread (none, none))).pc = MPC.mDone ∧
    (c9fin.reqs.getD 1 (minitThread (none, none))).err = some ("b") ∧
    c9fin.cause = some (some ("a")) ∧
    c9fin.mwret = some (some ("a")) := by decide

/-- C9 (amended): both source variants guarantee that at most one
protected section executes concurrently; the lifecycle variant's drain
path additionally returns every completed run's reported error (exactly
the joined multiset), while the mutex-plus-context variant keeps only the
first completion's cause (see the counterexample). -/
theorem C9_amended_serialization_and_lifecycle_no_drop :
    (∀ (specs : List (Option String × Option String)) (acts : List MAct) (c : MConf),
      mrun (minit specs) acts = some c → mProtCount c ≤ 1) ∧
    (∀ (specs : List (Option String × Option String)) (acts : List Act) (c : LConf),
      lrun (linit specs) acts = some c → protCount c ≤ 1) ∧
    (∀ (specs : List (Option String × Option String)) (acts : List Act) (c1 c : LConf),
      lrun (linit specs) acts = some c1 → (∀ t ∈ c1.reqs, t.pc = RPC.finished) →
      lstep c1 Act.wJoinErrs = some c →
      c.wret = some (WRet.drained (errorsJoin c1.errs)) ∧
      (aggMsgs (errorsJoin c1.errs)).Perm (c1.reqs.filterMap RThread.err)) := by
  refine ⟨?_, ?_, ?_⟩
  · intro specs acts c h
    have hI := minv_mrun (minv_minit specs) h
    have hIc : mProtCount c = if c.mu = true then 1 else 0 := hI
    rw [hIc]
    by_cases hmu : c.mu = true
    · rw [if_pos hmu]
    · rw [if_neg hmu]
      omega
  · intro specs acts c h
    have hI := inv_lrun (inv_linit specs) h
    rw [hI.1]
    by_cases hmu : c.appMu = true
    · rw [if_pos hmu]
    · rw [if_neg hmu]
      omega
  · intro specs acts c1 c h hfin hd
    have hI := inv_lrun (inv_linit specs) h
    have hperm : c1.errs.Perm (c1.reqs.map RThread.err) := by
      have h3 := hI.2.2.1
      have hfl : c1.reqs.filter (fun u => pastAppendP u.pc) = c1.reqs :=
        List.filter_eq_self.mpr (fun t ht => by simp [pastAppendP, hfin t ht])
      simp only [recordedErrs] at h3
      rw [hfl] at h3
      exact h3
    constructor
    · rw [lstep_wJoinErrs] at hd
      by_cases hcr : c1.crashed = true
      · rw [if_pos hcr] at hd
        exact absurd hd (by simp)
      rw [if_neg hcr] at hd
      by_cases hw : c1.wpc = WPC.wJoin
      · rw [if_pos hw] at hd
        injection hd with hd
        rw [← hd]
      · rw [if_neg hw] at hd
        exact absurd hd (by simp)
    · rw [aggMsgs_errorsJoin]
      have := hperm.filterMap id
      rw [List.filterMap_map] at this
      simpa using this

def c9wacts : List MAct := [MAct.req 0, MAct.req 0, MAct.req 0]

def c9wconf : MConf := (mrun (minit c9specs) c9wacts).getD (minit [])

/-- Witness for the amended C9: one request inside the mutex-variant
protected section, a second blocked at the lock. -/
theorem C9_witness :
    mrun (minit c9specs) c9wacts = some c9wconf ∧
    mProtCount c9wconf = 1 ∧ mProtCount c9wconf ≤ 1 :=
  ⟨by decide, by decide,
    (C9_amended_serialization_and_lifecycle_no_drop).1 c9specs c9wacts c9wconf (by decide)⟩

end UPM
